import Mathlib

/-!
Verification of the godsvagn repository generator against its
natural-language specification.

The development shallowly embeds the Rust sources:
* `crates/parsedeb/src/lib.rs` — the control-file parser and validator,
* `crates/package/src/lib.rs` — the package model and its index serialization,
* `crates/filemeta/src/lib.rs` — the multi-hash streamer,
* `crates/indexgen/src/lib.rs` — the repository generator,
* `crates/godsvagn-repogen/src/main.rs` — the package reader.

Strings are modelled as `List Char` (Rust `&str` iterated by `chars()`),
byte buffers as `List Nat` with every element below 256.  Byte offsets are
advanced by UTF-8 code-point width exactly as the source does.  External
collaborators (gzip, xz, PGP signing) are taken as explicit function
parameters of the embedding.
-/

set_option maxRecDepth 8192

deriving instance DecidableEq for Except

/-- Strings of the embedded program: Rust `&str` viewed as its characters. -/
abbrev Str := List Char

/-- The ordered key→value map (`IndexMap<&str, &str>`): an association list
in insertion order. -/
abbrev KVMap := List (Str × Str)

/-- The `IndexMap::insert` as used by `parse_control`: appending a fresh binding,
reporting `none` when the key is already present (the caller turns that into
`DuplicateKey`). -/
def mapInsert (m : KVMap) (k v : Str) : Option KVMap :=
  if m.any (fun kv => kv.1 == k) then none else some (m ++ [(k, v)])

/-- Extract the characters of `input` whose starting byte offset lies in
`[s, e)`; with `s` and `e` on character boundaries this is the Rust slice
`&input[s..e]`. -/
def utf8ExtractFrom : List Char → Nat → Nat → Nat → Str
  | [], _, _, _ => []
  | c :: cs, pos, s, e =>
    (if s ≤ pos ∧ pos < e then [c] else []) ++ utf8ExtractFrom cs (pos + c.utf8Size) s e

/-- The Rust byte slice `&input[s..e]` of the whole parser input. -/
def utf8Extract (input : Str) (s e : Nat) : Str :=
  utf8ExtractFrom input 0 s e

/-- The `parsedeb::ParseError`. -/
inductive ParseError
  | DuplicateKey (k : Str)
  | NoValueForKey (k : Str)
  | IncompleteKey (offset : Nat)
  | MustEndInNewline
deriving DecidableEq, Repr

/-- The `parsedeb::ParseState`.  Key and value slices are kept as the key text
and the value's starting byte offset, as in the source. -/
inductive ParseState
  | CreatingKey (s : Nat)
  | SkippingComment
  | SkippingNewlineComment
  | SkippingColon (k : Str)
  | CreatingValue (k : Str) (s : Nat)
  | ValueNewLine (k : Str) (s : Nat)
deriving DecidableEq, Repr

/-- The character loop of `parse_control`: `input` is the full text (for
slicing), the remaining characters are consumed one at a time while `idx`
tracks the byte offset of the current character.  The empty-list case is the
source's post-loop `match state`. -/
def parseControlGo (input : Str) : List Char → Nat → ParseState → KVMap →
    Except ParseError KVMap
  | [], idx, state, output =>
    match state with
    | .CreatingKey s => .error (.IncompleteKey s)
    | .SkippingColon k => .error (.NoValueForKey k)
    | .CreatingValue _ _ => .error .MustEndInNewline
    | .ValueNewLine k s =>
      match mapInsert output k (utf8Extract input s idx) with
      | none => .error (.DuplicateKey k)
      | some out => .ok out
    | .SkippingComment => .ok output
    | .SkippingNewlineComment => .ok output
  | c :: rest, idx, state, output =>
    match state with
    | .CreatingKey s =>
      if c = ':' then
        parseControlGo input rest (idx + c.utf8Size) (.SkippingColon (utf8Extract input s idx))
          output
      else if c = '#' then
        parseControlGo input rest (idx + c.utf8Size) .SkippingComment output
      else
        parseControlGo input rest (idx + c.utf8Size) (.CreatingKey s) output
    | .SkippingColon k =>
      if c = '\n' then .error (.IncompleteKey idx)
      else parseControlGo input rest (idx + c.utf8Size) (.CreatingValue k idx) output
    | .CreatingValue k s =>
      if c = '\n' then parseControlGo input rest (idx + c.utf8Size) (.ValueNewLine k s) output
      else parseControlGo input rest (idx + c.utf8Size) (.CreatingValue k s) output
    | .ValueNewLine k s =>
      if c = '\t' ∨ c = ' ' then
        parseControlGo input rest (idx + c.utf8Size) (.CreatingValue k s) output
      else
        match mapInsert output k (utf8Extract input s idx) with
        | none => .error (.DuplicateKey k)
        | some out =>
          if c = '#' then parseControlGo input rest (idx + c.utf8Size) .SkippingComment out
          else parseControlGo input rest (idx + c.utf8Size) (.CreatingKey idx) out
    | .SkippingComment =>
      if c = '\n' then parseControlGo input rest (idx + c.utf8Size) .SkippingNewlineComment output
      else parseControlGo input rest (idx + c.utf8Size) .SkippingComment output
    | .SkippingNewlineComment =>
      if c = '#' then parseControlGo input rest (idx + c.utf8Size) .SkippingComment output
      else parseControlGo input rest (idx + c.utf8Size) (.CreatingKey idx) output

/-- The `parsedeb::parse_control`. -/
def parse_control (input : Str) : Except ParseError KVMap :=
  parseControlGo input input 0 (.CreatingKey 0) []

/-- Rust `str::to_ascii_lowercase` character-wise; Lean's `Char.toLower`
lowercases exactly the ASCII uppercase range, as the Rust method does. -/
def lowerAscii (s : Str) : Str :=
  s.map Char.toLower

/-- The `parsedeb::RequiredField`. -/
inductive RequiredField
  | Package
  | Version
  | Architecture
  | Maintainer
  | Description
deriving DecidableEq, Repr

/-- The `RequiredField::ALL`. -/
def RequiredField.ALL : List RequiredField :=
  [.Package, .Version, .Architecture, .Maintainer, .Description]

/-- The `impl FromStr for RequiredField`: match on the ASCII-lowercased key. -/
def RequiredField.fromStr (s : Str) : Option RequiredField :=
  let l := lowerAscii s
  if l = "package".toList then some .Package
  else if l = "version".toList then some .Version
  else if l = "architecture".toList then some .Architecture
  else if l = "maintainer".toList then some .Maintainer
  else if l = "description".toList then some .Description
  else none

/-- The `parsedeb::ForbiddenField`. -/
inductive ForbiddenField
  | Filename
  | Size
  | Md5Sum
  | Sha1
  | Sha256
  | DescriptionMd5
deriving DecidableEq, Repr

/-- The `impl FromStr for ForbiddenField`: match on the ASCII-lowercased key. -/
def ForbiddenField.fromStr (s : Str) : Option ForbiddenField :=
  let l := lowerAscii s
  if l = "filename".toList then some .Filename
  else if l = "size".toList then some .Size
  else if l = "md5sum".toList then some .Md5Sum
  else if l = "sha1".toList then some .Sha1
  else if l = "sha256".toList then some .Sha256
  else if l = "description-md5".toList then some .DescriptionMd5
  else none

/-- The `parsedeb::Error`, restricted to the variants the pure core can produce
(the archive and read variants never arise from `get_control`). -/
inductive ControlError
  | NoControlBundle
  | NoControl
  | DoesNotStartWithPackage
  | MissingFields (l : List RequiredField)
  | ForbiddenFields (l : List ForbiddenField)
  | Parse (e : ParseError)
deriving DecidableEq, Repr

/-- The `parsedeb::ExtractedKeys`. -/
structure ExtractedKeys where
  required : List RequiredField
  forbidden : List ForbiddenField
  first : Option RequiredField
deriving DecidableEq, Repr

/-- The `parsedeb::extract_keys`. -/
def extract_keys (vals : KVMap) : ExtractedKeys where
  required := vals.filterMap (fun kv => RequiredField.fromStr kv.1)
  forbidden := vals.filterMap (fun kv => ForbiddenField.fromStr kv.1)
  first := vals.head?.bind (fun kv => RequiredField.fromStr kv.1)

/-- The `parsedeb::get_control`: parse, then validate with the source's
precedence (first-key check, then missing fields, then forbidden fields). -/
def get_control (control : Str) : Except ControlError KVMap :=
  match parse_control control with
  | .error e => .error (.Parse e)
  | .ok parsed_map =>
    let keys := extract_keys parsed_map
    if keys.first ≠ some RequiredField.Package then
      .error .DoesNotStartWithPackage
    else
      let missing_fields := RequiredField.ALL.filter (fun req => !(keys.required.contains req))
      if missing_fields ≠ [] then .error (.MissingFields missing_fields)
      else if keys.forbidden ≠ [] then .error (.ForbiddenFields keys.forbidden)
      else .ok parsed_map

/-- The canonical lowercase spelling of a required field name. -/
def requiredName : RequiredField → Str
  | .Package => "package".toList
  | .Version => "version".toList
  | .Architecture => "architecture".toList
  | .Maintainer => "maintainer".toList
  | .Description => "description".toList

/-- The canonical lowercase spelling of a forbidden field name. -/
def forbiddenName : ForbiddenField → Str
  | .Filename => "filename".toList
  | .Size => "size".toList
  | .Md5Sum => "md5sum".toList
  | .Sha1 => "sha1".toList
  | .Sha256 => "sha256".toList
  | .DescriptionMd5 => "description-md5".toList

/-- Spec-side reading of the first-key check: the map is non-empty and its
first key, ASCII-lowercased, spells `package`. -/
def firstKeyPackage (m : KVMap) : Bool :=
  match m.head? with
  | none => false
  | some kv => lowerAscii kv.1 == "package".toList

/-- Spec-side reading of the missing-field computation: the required fields,
in declaration order, that no key of the map spells case-insensitively. -/
def missingSpec (m : KVMap) : List RequiredField :=
  RequiredField.ALL.filter (fun r => !(m.any (fun kv => lowerAscii kv.1 == requiredName r)))

/-- The six forbidden fields in the source's declaration order. -/
def ForbiddenField.ALL6 : List ForbiddenField :=
  [.Filename, .Size, .Md5Sum, .Sha1, .Sha256, .DescriptionMd5]

/-- Spec-side reading of the forbidden-field computation: for each binding of
the map, in order, the forbidden field its key spells case-insensitively. -/
def forbiddenSpec (m : KVMap) : List ForbiddenField :=
  m.filterMap (fun kv => ForbiddenField.ALL6.find? (fun f => lowerAscii kv.1 == forbiddenName f))

/-- Total UTF-8 byte length of a string (Rust `str::len`). -/
def byteLen (s : Str) : Nat :=
  (s.map Char.utf8Size).sum

/-- A comment line: `'#'`, then any characters other than newline, then the
terminating `'\n'`. -/
def commentLine (mid : Str) : Str :=
  '#' :: mid ++ ['\n']

/-- Truncate to 32 bits. -/
def mask32 (a : Nat) : Nat := a % 4294967296

/-- Addition modulo `2^32`. -/
def add32 (a b : Nat) : Nat := (a + b) % 4294967296

/-- Bitwise complement on 32 bits. -/
def not32 (a : Nat) : Nat := 4294967295 ^^^ a

/-- Left rotation of a 32-bit word. -/
def rotl32 (x n : Nat) : Nat := ((x * 2 ^ n) % 4294967296) ||| (x / 2 ^ (32 - n))

/-- Right rotation of a 32-bit word. -/
def rotr32 (x n : Nat) : Nat := (x / 2 ^ n) ||| ((x * 2 ^ (32 - n)) % 4294967296)

/-- Split a byte list into 64-byte blocks (`fuel` bounds the recursion). -/
def chunk64 : Nat → List Nat → List (List Nat)
  | 0, _ => []
  | _ + 1, [] => []
  | f + 1, l => l.take 64 :: chunk64 f (l.drop 64)

/-- Little-endian 32-bit words of a block. -/
def words32LE : List Nat → List Nat
  | a :: b :: c :: d :: rest => (a + 256 * b + 65536 * c + 16777216 * d) :: words32LE rest
  | _ => []

/-- Big-endian 32-bit words of a block. -/
def words32BE : List Nat → List Nat
  | a :: b :: c :: d :: rest => (16777216 * a + 65536 * b + 256 * c + d) :: words32BE rest
  | _ => []

/-- Little-endian bytes of a 32-bit word. -/
def toLE32 (n : Nat) : List Nat :=
  [n % 256, n / 256 % 256, n / 65536 % 256, n / 16777216 % 256]

/-- Big-endian bytes of a 32-bit word. -/
def toBE32 (n : Nat) : List Nat :=
  [n / 16777216 % 256, n / 65536 % 256, n / 256 % 256, n % 256]

/-- Little-endian bytes of a 64-bit word. -/
def toLE64 (n : Nat) : List Nat :=
  toLE32 (n % 4294967296) ++ toLE32 (n / 4294967296 % 4294967296)

/-- Big-endian bytes of a 64-bit word. -/
def toBE64 (n : Nat) : List Nat :=
  toBE32 (n / 4294967296 % 4294967296) ++ toBE32 (n % 4294967296)

/-- Merkle–Damgård padding: `0x80`, zeros to 56 mod 64, then the bit length
as eight `lenBytes` bytes. -/
def mdPad (lenBytes : Nat → List Nat) (msg : List Nat) : List Nat :=
  msg ++ 128 :: List.replicate ((119 - msg.length % 64) % 64) 0 ++ lenBytes (8 * msg.length)

/-- The 64 MD5 sine-derived constants. -/
def md5K : List Nat :=
  [0xd76aa478, 0xe8c7b756, 0x242070db, 0xc1bdceee,
   0xf57c0faf, 0x4787c62a, 0xa8304613, 0xfd469501,
   0x698098d8, 0x8b44f7af, 0xffff5bb1, 0x895cd7be,
   0x6b901122, 0xfd987193, 0xa679438e, 0x49b40821,
   0xf61e2562, 0xc040b340, 0x265e5a51, 0xe9b6c7aa,
   0xd62f105d, 0x02441453, 0xd8a1e681, 0xe7d3fbc8,
   0x21e1cde6, 0xc33707d6, 0xf4d50d87, 0x455a14ed,
   0xa9e3e905, 0xfcefa3f8, 0x676f02d9, 0x8d2a4c8a,
   0xfffa3942, 0x8771f681, 0x6d9d6122, 0xfde5380c,
   0xa4beea44, 0x4bdecfa9, 0xf6bb4b60, 0xbebfbc70,
   0x289b7ec6, 0xeaa127fa, 0xd4ef3085, 0x04881d05,
   0xd9d4d039, 0xe6db99e5, 0x1fa27cf8, 0xc4ac5665,
   0xf4292244, 0x432aff97, 0xab9423a7, 0xfc93a039,
   0x655b59c3, 0x8f0ccc92, 0xffeff47d, 0x85845dd1,
   0x6fa87e4f, 0xfe2ce6e0, 0xa3014314, 0x4e0811a1,
   0xf7537e82, 0xbd3af235, 0x2ad7d2bb, 0xeb86d391]

/-- The 64 MD5 per-round left-rotation amounts. -/
def md5S : List Nat :=
  [7, 12, 17, 22, 7, 12, 17, 22, 7, 12, 17, 22, 7, 12, 17, 22,
   5, 9, 14, 20, 5, 9, 14, 20, 5, 9, 14, 20, 5, 9, 14, 20,
   4, 11, 16, 23, 4, 11, 16, 23, 4, 11, 16, 23, 4, 11, 16, 23,
   6, 10, 15, 21, 6, 10, 15, 21, 6, 10, 15, 21, 6, 10, 15, 21]

/-- The 64 MD5 message-word indices. -/
def md5G : List Nat :=
  [0, 1, 2, 3, 4, 5, 6, 7, 8, 9, 10, 11, 12, 13, 14, 15,
   1, 6, 11, 0, 5, 10, 15, 4, 9, 14, 3, 8, 13, 2, 7, 12,
   5, 8, 11, 14, 1, 4, 7, 10, 13, 0, 3, 6, 9, 12, 15, 2,
   0, 7, 14, 5, 12, 3, 10, 1, 8, 15, 6, 13, 4, 11, 2, 9]

/-- One MD5 operation. -/
def md5Op (m : List Nat) (st : Nat × Nat × Nat × Nat) (i : Nat) : Nat × Nat × Nat × Nat :=
  match st with
  | (a, b, c, d) =>
    let f :=
      if i < 16 then (b &&& c) ||| (not32 b &&& d)
      else if i < 32 then (d &&& b) ||| (not32 d &&& c)
      else if i < 48 then b ^^^ c ^^^ d
      else c ^^^ (b ||| not32 d)
    let tmp := add32 (add32 (add32 f a) (md5K.getD i 0)) (m.getD (md5G.getD i 0) 0)
    (d, add32 b (rotl32 tmp (md5S.getD i 0)), b, c)

/-- One MD5 block. -/
def md5Block (st : Nat × Nat × Nat × Nat) (block : List Nat) : Nat × Nat × Nat × Nat :=
  match st, (List.range 64).foldl (md5Op (words32LE block)) st with
  | (a0, b0, c0, d0), (a, b, c, d) => (add32 a0 a, add32 b0 b, add32 c0 c, add32 d0 d)

/-- MD5 of a byte sequence. -/
def md5 (msg : List Nat) : List Nat :=
  match (chunk64 (msg.length + 9) (mdPad toLE64 msg)).foldl md5Block
      (0x67452301, 0xefcdab89, 0x98badcfe, 0x10325476) with
  | (a, b, c, d) => toLE32 a ++ toLE32 b ++ toLE32 c ++ toLE32 d

/-- Extend 16 big-endian words to the 80 SHA-1 schedule words. -/
def sha1Sched (w : List Nat) (_i : Nat) : List Nat :=
  let l := w.length
  w ++ [rotl32 (w.getD (l - 3) 0 ^^^ w.getD (l - 8) 0 ^^^ w.getD (l - 14) 0 ^^^
    w.getD (l - 16) 0) 1]

/-- One SHA-1 operation. -/
def sha1Op (w : List Nat) (st : Nat × Nat × Nat × Nat × Nat) (i : Nat) :
    Nat × Nat × Nat × Nat × Nat :=
  match st with
  | (a, b, c, d, e) =>
    let f :=
      if i < 20 then (b &&& c) ||| (not32 b &&& d)
      else if i < 40 then b ^^^ c ^^^ d
      else if i < 60 then (b &&& c) ||| (b &&& d) ||| (c &&& d)
      else b ^^^ c ^^^ d
    let k :=
      if i < 20 then 0x5A827999
      else if i < 40 then 0x6ED9EBA1
      else if i < 60 then 0x8F1BBCDC
      else 0xCA62C1D6
    let tmp := add32 (add32 (add32 (add32 (rotl32 a 5) f) e) k) (w.getD i 0)
    (tmp, a, rotl32 b 30, c, d)

/-- One SHA-1 block. -/
def sha1Block (st : Nat × Nat × Nat × Nat × Nat) (block : List Nat) :
    Nat × Nat × Nat × Nat × Nat :=
  let w := (List.range 64).foldl sha1Sched (words32BE block)
  match st, (List.range 80).foldl (sha1Op w) st with
  | (h0, h1, h2, h3, h4), (a, b, c, d, e) =>
    (add32 h0 a, add32 h1 b, add32 h2 c, add32 h3 d, add32 h4 e)

/-- SHA-1 of a byte sequence. -/
def sha1 (msg : List Nat) : List Nat :=
  match (chunk64 (msg.length + 9) (mdPad toBE64 msg)).foldl sha1Block
      (0x67452301, 0xEFCDAB89, 0x98BADCFE, 0x10325476, 0xC3D2E1F0) with
  | (h0, h1, h2, h3, h4) => toBE32 h0 ++ toBE32 h1 ++ toBE32 h2 ++ toBE32 h3 ++ toBE32 h4

/-- The 64 SHA-256 round constants. -/
def sha256K : List Nat :=
  [0x428A2F98, 0x71374491, 0xB5C0FBCF, 0xE9B5DBA5, 0x3956C25B, 0x59F111F1, 0x923F82A4,
   0xAB1C5ED5, 0xD807AA98, 0x12835B01, 0x243185BE, 0x550C7DC3, 0x72BE5D74, 0x80DEB1FE,
   0x9BDC06A7, 0xC19BF174, 0xE49B69C1, 0xEFBE4786, 0x0FC19DC6, 0x240CA1CC, 0x2DE92C6F,
   0x4A7484AA, 0x5CB0A9DC, 0x76F988DA, 0x983E5152, 0xA831C66D, 0xB00327C8, 0xBF597FC7,
   0xC6E00BF3, 0xD5A79147, 0x06CA6351, 0x14292967, 0x27B70A85, 0x2E1B2138, 0x4D2C6DFC,
   0x53380D13, 0x650A7354, 0x766A0ABB, 0x81C2C92E, 0x92722C85, 0xA2BFE8A1, 0xA81A664B,
   0xC24B8B70, 0xC76C51A3, 0xD192E819, 0xD6990624, 0xF40E3585, 0x106AA070, 0x19A4C116,
   0x1E376C08, 0x2748774C, 0x34B0BCB5, 0x391C0CB3, 0x4ED8AA4A, 0x5B9CCA4F, 0x682E6FF3,
   0x748F82EE, 0x78A5636F, 0x84C87814, 0x8CC70208, 0x90BEFFFA, 0xA4506CEB, 0xBEF9A3F7,
   0xC67178F2]

/-- Extend 16 big-endian words to the 64 SHA-256 schedule words. -/
def sha256Sched (w : List Nat) (_i : Nat) : List Nat :=
  let l := w.length
  let x := w.getD (l - 15) 0
  let y := w.getD (l - 2) 0
  let s0 := rotr32 x 7 ^^^ rotr32 x 18 ^^^ (x / 8)
  let s1 := rotr32 y 17 ^^^ rotr32 y 19 ^^^ (y / 1024)
  w ++ [(w.getD (l - 16) 0 + s0 + w.getD (l - 7) 0 + s1) % 4294967296]

/-- One SHA-256 operation. -/
def sha256Op (w : List Nat) (st : Nat × Nat × Nat × Nat × Nat × Nat × Nat × Nat) (i : Nat) :
    Nat × Nat × Nat × Nat × Nat × Nat × Nat × Nat :=
  match st with
  | (a, b, c, d, e, f, g, h) =>
    let S1 := rotr32 e 6 ^^^ rotr32 e 11 ^^^ rotr32 e 25
    let ch := (e &&& f) ^^^ (not32 e &&& g)
    let t1 := (h + S1 + ch + sha256K.getD i 0 + w.getD i 0) % 4294967296
    let S0 := rotr32 a 2 ^^^ rotr32 a 13 ^^^ rotr32 a 22
    let maj := (a &&& b) ^^^ (a &&& c) ^^^ (b &&& c)
    let t2 := add32 S0 maj
    (add32 t1 t2, a, b, c, add32 d t1, e, f, g)

/-- One SHA-256 block. -/
def sha256Block (st : Nat × Nat × Nat × Nat × Nat × Nat × Nat × Nat) (block : List Nat) :
    Nat × Nat × Nat × Nat × Nat × Nat × Nat × Nat :=
  let w := (List.range 48).foldl sha256Sched (words32BE block)
  match st, (List.range 64).foldl (sha256Op w) st with
  | (h0, h1, h2, h3, h4, h5, h6, h7), (a, b, c, d, e, f, g, h) =>
    (add32 h0 a, add32 h1 b, add32 h2 c, add32 h3 d,
     add32 h4 e, add32 h5 f, add32 h6 g, add32 h7 h)

/-- SHA-256 of a byte sequence. -/
def sha256 (msg : List Nat) : List Nat :=
  match (chunk64 (msg.length + 9) (mdPad toBE64 msg)).foldl sha256Block
      (0x6a09e667, 0xbb67ae85, 0x3c6ef372, 0xa54ff53a,
       0x510e527f, 0x9b05688c, 0x1f83d9ab, 0x5be0cd19) with
  | (h0, h1, h2, h3, h4, h5, h6, h7) =>
    toBE32 h0 ++ toBE32 h1 ++ toBE32 h2 ++ toBE32 h3 ++
    toBE32 h4 ++ toBE32 h5 ++ toBE32 h6 ++ toBE32 h7

/-- Lowercase hex digits. -/
def hexDigits : List Char :=
  "0123456789abcdef".toList

/-- Lowercase hexadecimal rendering of a byte list. -/
def hexOf (bs : List Nat) : Str :=
  bs.flatMap (fun b => [hexDigits.getD (b / 16) '0', hexDigits.getD (b % 16) '0'])

/-- Unicode `White_Space` predicate (Rust `char::is_whitespace`). -/
def isRustWhitespace (c : Char) : Bool :=
  let n := c.toNat
  (0x09 ≤ n ∧ n ≤ 0x0D) ∨ n = 0x20 ∨ n = 0x85 ∨ n = 0xA0 ∨ n = 0x1680 ∨
  (0x2000 ≤ n ∧ n ≤ 0x200A) ∨ n = 0x2028 ∨ n = 0x2029 ∨ n = 0x202F ∨ n = 0x205F ∨ n = 0x3000

/-- Rust `str::trim`: drop whitespace from both ends. -/
def rustTrim (s : Str) : Str :=
  ((s.dropWhile isRustWhitespace).reverse.dropWhile isRustWhitespace).reverse

/-- Decimal rendering of a `Nat` (`usize` via `Display`); fuel-structured so
that it reduces definitionally. -/
def natDigitsCore : Nat → Nat → Str
  | 0, _ => []
  | f + 1, n =>
    if n < 10 then [hexDigits.getD n '0']
    else natDigitsCore f (n / 10) ++ [hexDigits.getD (n % 10) '0']

/-- Decimal rendering of a natural number. -/
def natRepr (n : Nat) : Str :=
  natDigitsCore (n + 1) n

/-- The `filemeta::FileSums`. -/
structure FileSums where
  sha1 : List Nat
  sha256 : List Nat
  md5 : List Nat
deriving DecidableEq, Repr

/-- Alias usable inside the `FileSums` namespace. -/
def hashMd5 : List Nat → List Nat := md5

/-- Alias usable inside the `FileSums` namespace. -/
def hashSha1 : List Nat → List Nat := sha1

/-- Alias usable inside the `FileSums` namespace. -/
def hashSha256 : List Nat → List Nat := sha256

/-- The `FileSums::new` over in-memory bytes: the three digests of exactly the
same byte sequence (chunked reads from a slice cannot fail, so the model is
total). -/
def FileSums.new (data : List Nat) : FileSums where
  sha1 := hashSha1 data
  sha256 := hashSha256 data
  md5 := hashMd5 data

/-- The `filemeta::FileMeta`. -/
structure FileMeta where
  path : Str
  size : Nat
  sums : FileSums
deriving DecidableEq, Repr

/-- The `FileMeta::new`: size is the byte length, sums the digests of the same
bytes. -/
def FileMeta.new (path : Str) (file : List Nat) : FileMeta where
  path := path
  size := file.length
  sums := FileSums.new file

/-- The `package::PackageMeta`. -/
structure PackageMeta where
  file : FileMeta
  description_md5 : List Nat
deriving DecidableEq, Repr

/-- The `PackageMeta::serialize`: the six derived fields, each `writeln!` except
the last `write!`. -/
def PackageMeta.serialize (m : PackageMeta) : Str :=
  "Filename: ".toList ++ m.file.path ++
  '\n' :: ("Size: ".toList ++ natRepr m.file.size ++
  '\n' :: ("Description-md5: ".toList ++ hexOf m.description_md5 ++
  '\n' :: ("MD5sum: ".toList ++ hexOf m.file.sums.md5 ++
  '\n' :: ("SHA1: ".toList ++ hexOf m.file.sums.sha1 ++
  '\n' :: ("SHA256: ".toList ++ hexOf m.file.sums.sha256)))))

/-- The `package::Package`. -/
structure Package where
  meta : PackageMeta
  name : Str
  architecture : Str
  version : Str
  fields : KVMap
deriving DecidableEq, Repr

/-- The `Package::write_into_packages`: the text appended to the target — every
original field as `key: trimmed-value` on its own line, then the derived
fields. -/
def Package.write_into_packages (p : Package) : Str :=
  (p.fields.flatMap (fun kv => kv.1 ++ ": ".toList ++ rustTrim kv.2 ++ ['\n'])) ++
    p.meta.serialize

/-- The serialization as the specification words it: original fields in
insertion order as `<key>: <value trimmed>` lines, then the six derived
fields in the order Filename, Size, Description-md5, MD5sum, SHA1, SHA256,
each on its own line, joined so that no newline follows the last. -/
def writePackagesSpec (p : Package) : Str :=
  (p.fields.flatMap (fun kv => kv.1 ++ ": ".toList ++ rustTrim kv.2 ++ ['\n'])) ++
    List.intercalate ['\n']
      ["Filename: ".toList ++ p.meta.file.path,
       "Size: ".toList ++ natRepr p.meta.file.size,
       "Description-md5: ".toList ++ hexOf p.meta.description_md5,
       "MD5sum: ".toList ++ hexOf p.meta.file.sums.md5,
       "SHA1: ".toList ++ hexOf p.meta.file.sums.sha1,
       "SHA256: ".toList ++ hexOf p.meta.file.sums.sha256]

/-- UTF-8 bytes of one character. -/
def utf8EncodeChar (c : Char) : List Nat :=
  let n := c.toNat
  if n < 128 then [n]
  else if n < 2048 then [192 + n / 64, 128 + n % 64]
  else if n < 65536 then [224 + n / 4096, 128 + n / 64 % 64, 128 + n % 64]
  else [240 + n / 262144, 128 + n / 4096 % 64, 128 + n / 64 % 64, 128 + n % 64]

/-- UTF-8 bytes of a string (Rust `str::as_bytes`). -/
def utf8Encode (s : Str) : List Nat :=
  s.flatMap utf8EncodeChar

/-- Rust `v.get(1..)` on a string: `some` of the bytes from offset 1 when
offset 1 is a character boundary (the first character is a single UTF-8
byte), else `none`; `none` on the empty string since `1 > len`. -/
def strGet1 (v : Str) : Option (List Nat) :=
  match v with
  | [] => none
  | c :: rest => if c.toNat < 128 then some (utf8Encode rest) else none

/-- Case-insensitive field lookup
(`fields.iter().find(|(k, _)| k.eq_ignore_ascii_case(name))`), returning the
value; `name` is given pre-lowercased. -/
def findCI (fields : KVMap) (name : Str) : Option Str :=
  (fields.find? (fun kv => lowerAscii kv.1 == name)).map (fun kv => kv.2)

/-- The `description_md5` computation of `read_package`: find the Description
field case-insensitively, take `v.get(1..)`, hash it, and hash the empty
byte string when the field is absent or the offset is not a boundary. -/
def description_md5_of (fields : KVMap) : List Nat :=
  match findCI fields "description".toList with
  | some v =>
    match strGet1 v with
    | some bytes => hashMd5 bytes
    | none => hashMd5 []
  | none => hashMd5 []

/-- Modelled from the spec: `parsedeb::RequiredFields`, whose definition is
not under `src/` (only its caller `read_package` is).  Per §3 the package's
`name`, `version` and `architecture` "equal the values of the corresponding
fields". -/
structure RequiredFields where
  package : Str
  version : Str
  architecture : Str
  maintainer : Str
  description : Str
deriving DecidableEq, Repr

/-- Modelled from the spec: `RequiredFields::from_map` looks the five
required fields up case-insensitively and yields `none` when any is
absent. -/
def RequiredFields.from_map (fields : KVMap) : Option RequiredFields :=
  match findCI fields "package".toList, findCI fields "version".toList,
      findCI fields "architecture".toList, findCI fields "maintainer".toList,
      findCI fields "description".toList with
  | some p, some v, some a, some m, some d =>
    some { package := p, version := v, architecture := a, maintainer := m, description := d }
  | _, _, _, _, _ => none

/-- The `godsvagn-repogen::PackageReadError`, restricted to the pure variants. -/
inductive PackageReadError
  | PackageRead (e : ControlError)
  | InvalidControl
deriving DecidableEq, Repr

/-- The pure core of `godsvagn-repogen::read_package`: given the control
text extracted from the archive and the package file's bytes, validate the
control, hash the file, compute `description_md5`, and assemble the package
with its canonical pool path. -/
def read_package (origPath : Str) (fileBytes : List Nat) (control : Str) :
    Except PackageReadError Package :=
  match get_control control with
  | .error e => .error (.PackageRead e)
  | .ok fields =>
    let file_meta : FileMeta :=
      { path := origPath, size := fileBytes.length, sums := FileSums.new fileBytes }
    let dmd5 := description_md5_of fields
    match RequiredFields.from_map fields with
    | none => .error .InvalidControl
    | some rf =>
      let path := "pool/main/".toList ++ rf.package ++
        '_' :: (rf.version ++ '_' :: (rf.architecture ++ ".deb".toList))
      .ok { meta := { file := { path := path, size := file_meta.size, sums := file_meta.sums },
                      description_md5 := dmd5 },
            name := rf.package, architecture := rf.architecture, version := rf.version,
            fields := fields }

/-- The bytes C5 claims are hashed: the UTF-8 bytes of the Description value
starting from the second byte (only the first byte skipped), empty when the
field is absent. -/
def descriptionBytesClaim (fields : KVMap) : List Nat :=
  match findCI fields "description".toList with
  | some v => (utf8Encode v).drop 1
  | none => []

/-- The bytes actually hashed, in spec terms: the UTF-8 bytes of the
Description value from the second byte on when the value's first byte is an
ASCII byte (so that byte offset 1 is a character boundary), and the empty
byte string when the value is empty, its first byte is not ASCII, or the
field is absent. -/
def descriptionBytesAmended (fields : KVMap) : List Nat :=
  match findCI fields "description".toList with
  | some v =>
    match utf8Encode v with
    | [] => []
    | b :: r => if b < 128 then r else []
  | none => []

/-- Control text whose Description value starts with a non-ASCII
character. -/
def c5Control : Str :=
  "Package: p\nVersion: 1\nArchitecture: a\nMaintainer: m\nDescription:é\n".toList

/-- The parsed map of `c5Control`. -/
def c5Map : KVMap :=
  [("Package".toList, " p\n".toList), ("Version".toList, " 1\n".toList),
   ("Architecture".toList, " a\n".toList), ("Maintainer".toList, " m\n".toList),
   ("Description".toList, "é\n".toList)]

/-- Control text with an ordinary ASCII Description value. -/
def c5wControl : Str :=
  "Package: p\nVersion: 1\nArchitecture: a\nMaintainer: m\nDescription: d\n".toList

/-- The parsed map of `c5wControl`. -/
def c5wMap : KVMap :=
  [("Package".toList, " p\n".toList), ("Version".toList, " 1\n".toList),
   ("Architecture".toList, " a\n".toList), ("Maintainer".toList, " m\n".toList),
   ("Description".toList, " d\n".toList)]

/-- The `indexgen::FileToUpload`. -/
structure FileToUpload where
  destination_path : Str
  data : List Nat
deriving DecidableEq, Repr

/-- The `indexgen::ReleaseMetadata`. -/
structure ReleaseMetadata where
  origin : Str
  label : Str
  suite : Str
  codename : Str
  version : Str
  description : Str
  date : Str
deriving DecidableEq, Repr

/-- The `indexgen::GenerateError`; compression and hashing causes are abstract
I/O error codes. -/
inductive GenerateError
  | Format
  | Signing
  | Compression (alg : Str) (path : Str) (cause : Nat)
  | HashFile (path : Str) (cause : Nat)
  | NoSignatures
deriving DecidableEq, Repr

/-- The `indexgen::IndexFileWithArch`. -/
structure IndexFileWithArch where
  arch : Str
  contents : Str
deriving DecidableEq, Repr

/-- The `indexgen::PackageIndexFile`. -/
structure PackageIndexFile where
  arch : Str
  path : Str
  data : List Nat
deriving DecidableEq, Repr

/-- The `format!("main/binary-{arch}/Packages")`. -/
def indexPathPlain (arch : Str) : Str :=
  "main/binary-".toList ++ arch ++ "/Packages".toList

/-- The `format!("{base_path}.gz")`. -/
def indexPathGz (arch : Str) : Str :=
  indexPathPlain arch ++ ".gz".toList

/-- The `format!("{base_path}.xz")`. -/
def indexPathXz (arch : Str) : Str :=
  indexPathPlain arch ++ ".xz".toList

/-- External compressors (gzip, xz): byte transformers that may fail with an
I/O error code. -/
abbrev Compressor := List Nat → Except Nat (List Nat)

/-- The `indexgen::result_flat_mapper` with the external compressors explicit.
The source tags BOTH compression failures with the algorithm name `"gz"`. -/
def result_flat_mapper (gz xz : Compressor) (f : IndexFileWithArch) :
    List (Except GenerateError PackageIndexFile) :=
  let base_path := indexPathPlain f.arch
  match gz (utf8Encode f.contents) with
  | .error e => [.error (.Compression "gz".toList base_path e)]
  | .ok gzData =>
    match xz (utf8Encode f.contents) with
    | .error e => [.error (.Compression "gz".toList base_path e)]
    | .ok xzData =>
      [.ok { path := indexPathGz f.arch, arch := f.arch, data := gzData },
       .ok { path := indexPathXz f.arch, arch := f.arch, data := xzData },
       .ok { path := base_path, arch := f.arch, data := utf8Encode f.contents }]

/-- The `collect::<Result<Vec<_>, _>>()`: first error aborts. -/
def collectExcept : List (Except GenerateError PackageIndexFile) →
    Except GenerateError (List PackageIndexFile)
  | [] => .ok []
  | .error e :: _ => .error e
  | .ok x :: rest =>
    match collectExcept rest with
    | .error e => .error e
    | .ok xs => .ok (x :: xs)

/-- The aggregation step of `generate_index_files`: append the package's
stanza (its serialization followed by `"\n\n"`) to its architecture's entry,
creating the entry when absent. -/
def addPackageStanza (acc : List (Str × Str)) (p : Package) : List (Str × Str) :=
  match acc with
  | [] => [(p.architecture, p.write_into_packages ++ "\n\n".toList)]
  | (a, s) :: rest =>
    if a = p.architecture then (a, s ++ p.write_into_packages ++ "\n\n".toList) :: rest
    else (a, s) :: addPackageStanza rest p

/-- The `indexgen::generate_index_files`, with the architecture groups listed in
first-occurrence order.  The source stores the groups in a `HashMap` and
iterates it in an unspecified order; the embedding models that order by
letting `generate_files` take any permutation of this list. -/
def generate_index_files (packages : List Package) : List IndexFileWithArch :=
  (packages.foldl addPackageStanza []).map (fun ad => { arch := ad.1, contents := ad.2 })

/-- One line of a Release hash section:
`" {hex} {size} {path}\n"`. -/
def hashLine (hex : Str) (size : Nat) (path : Str) : Str :=
  ' ' :: (hex ++ ' ' :: (natRepr size ++ ' ' :: (path ++ ['\n'])))

/-- The MD5 section lines of the Release body, in file order. -/
def md5SectionLines (files : List FileMeta) : List Str :=
  files.map (fun f => hashLine (hexOf f.sums.md5) f.size f.path)

/-- The SHA1 section lines of the Release body, in file order. -/
def sha1SectionLines (files : List FileMeta) : List Str :=
  files.map (fun f => hashLine (hexOf f.sums.sha1) f.size f.path)

/-- The SHA256 section lines of the Release body, in file order. -/
def sha256SectionLines (files : List FileMeta) : List Str :=
  files.map (fun f => hashLine (hexOf f.sums.sha256) f.size f.path)

/-- The `indexgen::generate_release`: the header lines in order, then the three
hash sections, each section listing every file in the given order. -/
def generate_release (meta : ReleaseMetadata) (files : List FileMeta) (arches : List Str) :
    Str :=
  "Origin: ".toList ++ meta.origin ++
  '\n' :: ("Label: ".toList ++ meta.label ++
  '\n' :: ("Suite: ".toList ++ meta.suite ++
  '\n' :: ("Version: ".toList ++ meta.version ++
  '\n' :: ("Codename: ".toList ++ meta.codename ++
  '\n' :: ("Date: ".toList ++ meta.date ++
  '\n' :: ("Architectures: ".toList ++ List.intercalate [' '] arches ++
  '\n' :: ("Components: main\n".toList ++
  "Acquire-By-Hash: no\n".toList ++
  "Changelogs: no\n".toList ++
  "Snapshots: no\n".toList ++
  "MD5Sum:\n".toList ++ (md5SectionLines files).flatten ++
  "SHA1:\n".toList ++ (sha1SectionLines files).flatten ++
  "SHA256:\n".toList ++ (sha256SectionLines files).flatten)))))))

/-- The outcome of `CleartextSignedMessage::sign` plus armoring, abstracted:
the armored cleartext message and the armored detached signatures. -/
structure SignOutput where
  armored : List Nat
  sigs : List (List Nat)

/-- The `indexgen::generate_files`, with the external collaborators (gzip, xz,
PGP signing, public-key serialization) passed as functions, and the
`HashMap` iteration order of `generate_index_files` passed as the explicit
list `indexOrder` (theorems quantify it over permutations of
`generate_index_files packages`). -/
def generate_files (gz xz : Compressor) (sign : Str → SignOutput) (pubkeyBytes : List Nat)
    (release_config : ReleaseMetadata) (indexOrder : List IndexFileWithArch) :
    Except GenerateError (List FileToUpload) :=
  match collectExcept (indexOrder.flatMap (result_flat_mapper gz xz)) with
  | .error e => .error e
  | .ok indexes =>
    let package_meta := indexes.map (fun i => FileMeta.new i.path i.data)
    let architectures := indexes.map (fun i => i.arch)
    let release := generate_release release_config package_meta architectures
    let sig := sign release
    match sig.sigs.head? with
    | none => .error .NoSignatures
    | some firstSig =>
      .ok ((indexes.map (fun v => { destination_path := v.path, data := v.data : FileToUpload }))
        ++ [{ destination_path := "InRelease".toList, data := sig.armored },
            { destination_path := "Release".toList, data := utf8Encode release },
            { destination_path := "Release.gpg".toList, data := firstSig },
            { destination_path := "deriv-archive-keyring.pgp".toList, data := pubkeyBytes }])

/-- The three index files `result_flat_mapper` produces for one architecture
group when both compressors succeed. -/
def successTriple (gz xz : Compressor) (f : IndexFileWithArch) : List PackageIndexFile :=
  match gz (utf8Encode f.contents), xz (utf8Encode f.contents) with
  | .ok g, .ok x =>
    [{ path := indexPathGz f.arch, arch := f.arch, data := g },
     { path := indexPathXz f.arch, arch := f.arch, data := x },
     { path := indexPathPlain f.arch, arch := f.arch, data := utf8Encode f.contents }]
  | _, _ => []

/-- The last two characters of a string, innermost last. -/
def lastTwo (l : Str) : Option (Char × Char) :=
  match l.reverse with
  | c1 :: c2 :: _ => some (c1, c2)
  | _ => none

/-- The release text generated from a collected index list. -/
def releaseOf (cfg : ReleaseMetadata) (indexes : List PackageIndexFile) : Str :=
  generate_release cfg (indexes.map fun i => FileMeta.new i.path i.data)
    (indexes.map fun i => i.arch)

/-- The four fixed output paths of `generate_files`, in emission order. -/
def basePaths : List Str :=
  ["InRelease".toList, "Release".toList, "Release.gpg".toList,
   "deriv-archive-keyring.pgp".toList]

/-- A first test package (architecture `a`). -/
def pkgA : Package :=
  { meta := { file := { path := "pool/main/p1_1_a.deb".toList, size := 3,
                        sums := { sha1 := [1], sha256 := [2], md5 := [3] } },
              description_md5 := [4] },
    name := "p1".toList, architecture := "a".toList, version := "1".toList,
    fields := [("Package".toList, " p1\n".toList)] }

/-- A second test package (architecture `b`). -/
def pkgB : Package :=
  { meta := { file := { path := "pool/main/p2_1_b.deb".toList, size := 3,
                        sums := { sha1 := [5], sha256 := [6], md5 := [7] } },
              description_md5 := [8] },
    name := "p2".toList, architecture := "b".toList, version := "1".toList,
    fields := [("Package".toList, " p2\n".toList)] }

/-- A stand-in compressor that succeeds with the identity. -/
def idComp : Compressor := fun bs => .ok bs

/-- A stand-in signer producing one fixed signature. -/
def signK : Str → SignOutput := fun _ => { armored := [9], sigs := [[8]] }

/-- A concrete release configuration. -/
def cfgW : ReleaseMetadata :=
  { origin := "o".toList, label := "l".toList, suite := "s".toList,
    codename := "c".toList, version := "v".toList, description := "d".toList,
    date := "D".toList }

/-- The grouped index files of the two-architecture test repository. -/
def gifAB : List IndexFileWithArch := generate_index_files [pkgA, pkgB]

/-- C3 counterexample: on the input `"K: v\n\nJ: w\n"` — a committed value's
terminating newline immediately followed by another newline — the parser does
NOT keep the empty line in the value of `K`.  It commits `K ↦ " v\n"` at the
blank line and starts a new key whose slice begins at that newline, so the
second field's key is `"\nJ"`.  The second conjunct records that the committed
value is not the value the claim predicts (one ending in the empty
continuation line). -/
theorem c3_counterexample :
    parse_control "K: v\n\nJ: w\n".toList =
      .ok [("K".toList, " v\n".toList), ("\nJ".toList, " w\n".toList)] ∧
    (" v\n".toList : Str) ≠ " v\n\n".toList := by
  exact ⟨by decide, by decide⟩

/-- C3 (amended): in the `ValueNewLine` state a newline character commits the
pending field (raising `DuplicateKey` when the key is already bound) and
parsing continues in the `CreatingKey` state whose key slice begins at that
newline's byte offset; the empty continuation line is not kept in the value. -/
theorem c3_value_newline_commits (input rest : Str) (idx : Nat) (k : Str) (s : Nat)
    (out : KVMap) :
    parseControlGo input ('\n' :: rest) idx (.ValueNewLine k s) out =
      match mapInsert out k (utf8Extract input s idx) with
      | none => .error (.DuplicateKey k)
      | some out2 => parseControlGo input rest (idx + 1) (.CreatingKey idx) out2 := by
  simp only [parseControlGo]
  rw [if_neg (by decide : ¬('\n' = '\t' ∨ '\n' = ' '))]
  cases h : mapInsert out k (utf8Extract input s idx) with
  | none => rfl
  | some out2 => rfl

/-- C4 counterexample: the line `"K#ey: v\n"` does not parse as a field with
key `"K#ey"`; the `'#'` after the non-empty key prefix `"K"` still starts a
comment, the whole line is discarded, and the parse succeeds with the empty
map. -/
theorem c4_counterexample :
    parse_control "K#ey: v\n".toList = .ok [] ∧
    ([] : KVMap) ≠ [("K#ey".toList, " v\n".toList)] := by
  exact ⟨by decide, by decide⟩

/-- The `RequiredField::from_str` succeeds with `r` exactly when the
ASCII-lowercased key spells `r`'s canonical name. -/
theorem requiredField_fromStr_iff (k : Str) (r : RequiredField) :
    RequiredField.fromStr k = some r ↔ lowerAscii k = requiredName r := by
  cases r <;> simp only [RequiredField.fromStr, requiredName] <;>
    split_ifs <;> simp_all

/-- The `ForbiddenField::from_str` succeeds with `f` exactly when the
ASCII-lowercased key spells `f`'s canonical name. -/
theorem forbiddenField_fromStr_iff (k : Str) (f : ForbiddenField) :
    ForbiddenField.fromStr k = some f ↔ lowerAscii k = forbiddenName f := by
  cases f <;> simp only [ForbiddenField.fromStr, forbiddenName] <;>
    split_ifs <;> simp_all

/-- The code's first-key check agrees with the spec-side reading: the parsed
map's first key is recognized as `Package` exactly when it lowercases to
`package`. -/
theorem extractKeys_first_iff (m : KVMap) :
    (extract_keys m).first = some RequiredField.Package ↔ firstKeyPackage m = true := by
  cases m with
  | nil => simp [extract_keys, firstKeyPackage]
  | cons kv t =>
    simp [extract_keys, firstKeyPackage, requiredField_fromStr_iff, requiredName]

/-- The code's membership test over the extracted required keys agrees with a
case-insensitive search of the map. -/
theorem extractKeys_required_contains (m : KVMap) (r : RequiredField) :
    (extract_keys m).required.contains r =
      m.any (fun kv => lowerAscii kv.1 == requiredName r) := by
  rw [Bool.eq_iff_iff]
  simp [extract_keys, List.mem_filterMap, List.any_eq_true,
    requiredField_fromStr_iff]

/-- The code's missing-field list equals the spec-side one. -/
theorem missing_fields_eq (m : KVMap) :
    RequiredField.ALL.filter
        (fun req => !((extract_keys m).required.contains req)) = missingSpec m := by
  unfold missingSpec
  exact List.filter_congr fun r _ => by rw [extractKeys_required_contains]

/-- The code's forbidden-key recognizer agrees with the spec-side table
search. -/
theorem forbiddenField_fromStr_eq_find (k : Str) :
    ForbiddenField.fromStr k =
      ForbiddenField.ALL6.find? (fun f => lowerAscii k == forbiddenName f) := by
  simp only [ForbiddenField.fromStr, ForbiddenField.ALL6]
  split_ifs <;> simp_all [forbiddenName, List.find?, Bool.beq_eq_decide_eq]

/-- The code's forbidden-field list equals the spec-side one. -/
theorem extractKeys_forbidden_eq (m : KVMap) :
    (extract_keys m).forbidden = forbiddenSpec m := by
  have hf : (fun kv : Str × Str => ForbiddenField.fromStr kv.1) =
      (fun kv : Str × Str =>
        ForbiddenField.ALL6.find? (fun f => lowerAscii kv.1 == forbiddenName f)) :=
    funext fun kv => forbiddenField_fromStr_eq_find kv.1
  simp only [extract_keys, forbiddenSpec, hf]

/-- C9: `get_control` reports at most one validation error, chosen by a fixed
precedence.  When the first key does not lowercase to `package` the result is
`DoesNotStartWithPackage` regardless of any missing or forbidden fields; when
it does but some required field is missing, the result is `MissingFields` of
exactly those fields regardless of forbidden fields; `ForbiddenFields` is
reported only when the other two checks pass, and the parse succeeds only
when all three pass. -/
theorem c9_validation_precedence (control : Str) (m : KVMap)
    (h : parse_control control = .ok m) :
    (firstKeyPackage m = false → get_control control = .error .DoesNotStartWithPackage)
    ∧ (firstKeyPackage m = true → missingSpec m ≠ [] →
        get_control control = .error (.MissingFields (missingSpec m)))
    ∧ (firstKeyPackage m = true → missingSpec m = [] → forbiddenSpec m ≠ [] →
        get_control control = .error (.ForbiddenFields (forbiddenSpec m)))
    ∧ (firstKeyPackage m = true → missingSpec m = [] → forbiddenSpec m = [] →
        get_control control = .ok m) := by
  have hmiss := missing_fields_eq m
  have hforb := extractKeys_forbidden_eq m
  refine ⟨fun hf => ?_, fun hf hm => ?_, fun hf hm hfo => ?_, fun hf hm hfo => ?_⟩ <;>
      simp only [get_control, h]
  · have : (extract_keys m).first ≠ some RequiredField.Package := fun hc => by
      rw [extractKeys_first_iff m] at hc
      simp [hc] at hf
    rw [if_pos this]
  · rw [if_neg (not_not_intro ((extractKeys_first_iff m).mpr hf)), hmiss, if_pos hm]
  · rw [if_neg (not_not_intro ((extractKeys_first_iff m).mpr hf)), hmiss, if_neg
      (not_not_intro hm), hforb, if_pos hfo]
  · rw [if_neg (not_not_intro ((extractKeys_first_iff m).mpr hf)), hmiss, if_neg
      (not_not_intro hm), hforb, if_neg (not_not_intro hfo)]

/-- Witness for C9: on `"Version: 1\nFilename: f\n"` the first key is not
`Package`, fields are missing and a forbidden field is present, yet the sole
error reported is `DoesNotStartWithPackage`. -/
theorem c9_validation_precedence_witness :
    get_control "Version: 1\nFilename: f\n".toList = .error .DoesNotStartWithPackage ∧
      firstKeyPackage [("Version".toList, " 1\n".toList),
        ("Filename".toList, " f\n".toList)] = false := by
  refine ⟨?_, by decide⟩
  exact (c9_validation_precedence "Version: 1\nFilename: f\n".toList
    [("Version".toList, " 1\n".toList), ("Filename".toList, " f\n".toList)]
    (by decide)).1 (by decide)

/-- In the `SkippingComment` state the parser consumes everything up to and
including the next newline and lands in `SkippingNewlineComment`. -/
theorem skipComment_chunk (mid : Str) (h : '\n' ∉ mid) :
    ∀ (input rest : Str) (idx : Nat) (out : KVMap),
    parseControlGo input (mid ++ '\n' :: rest) idx .SkippingComment out =
      parseControlGo input rest (idx + byteLen mid + 1) .SkippingNewlineComment out := by
  induction mid with
  | nil =>
    intro input rest idx out
    simp [parseControlGo, byteLen, show Char.utf8Size '\n' = 1 from rfl]
  | cons c cs ih =>
    intro input rest idx out
    have hc : ¬ (c = '\n') := fun hh => h (hh ▸ List.mem_cons_self _ _)
    simp only [List.cons_append, parseControlGo, if_neg hc, List.append_eq]
    rw [ih (fun hm => h (List.mem_cons_of_mem _ hm))]
    congr 2
    simp [byteLen]
    omega

/-- From the `SkippingNewlineComment` state, any sequence of comment lines is
discarded and an input ending there is accepted with the output unchanged. -/
theorem commentLines_skipped (mids : List Str) (h : ∀ mid ∈ mids, '\n' ∉ mid) :
    ∀ (input : Str) (idx : Nat) (out : KVMap),
    parseControlGo input ((mids.map commentLine).flatten) idx .SkippingNewlineComment out =
      .ok out := by
  induction mids with
  | nil => intro input idx out; rfl
  | cons m ms ih =>
    intro input idx out
    have hflat : ((m :: ms).map commentLine).flatten =
        '#' :: (m ++ '\n' :: (ms.map commentLine).flatten) := by
      simp [commentLine]
    rw [hflat]
    simp only [parseControlGo, if_pos rfl]
    rw [skipComment_chunk m (h m (List.mem_cons_self _ _))]
    exact ih (fun mid hm => h mid (List.mem_cons_of_mem _ hm)) input _ out

/-- C10: an input consisting solely of comment lines (each starting with `'#'`
and ending with `'\n'`) parses successfully to the empty map, while the empty
input fails with `IncompleteKey 0`. -/
theorem c10_comments_only_empty_map :
    (∀ mids : List Str, mids ≠ [] → (∀ mid ∈ mids, '\n' ∉ mid) →
      parse_control ((mids.map commentLine).flatten) = .ok []) ∧
    parse_control [] = .error (.IncompleteKey 0) := by
  refine ⟨?_, rfl⟩
  intro mids hne h
  match mids with
  | m :: ms =>
    have hflat : ((m :: ms).map commentLine).flatten =
        '#' :: (m ++ '\n' :: (ms.map commentLine).flatten) := by
      simp [commentLine]
    unfold parse_control
    rw [hflat]
    simp only [parseControlGo, if_neg (by decide : ¬('#' = ':')), if_pos rfl]
    rw [skipComment_chunk m (h m (List.mem_cons_self _ _))]
    exact commentLines_skipped ms (fun mid hm => h mid (List.mem_cons_of_mem _ hm)) _ _ _

/-- Witness for C10 at the concrete input `"#a\n"`. -/
theorem c10_comments_only_empty_map_witness :
    (["a".toList] ≠ ([] : List Str) ∧ ∀ mid ∈ [("a".toList : Str)], '\n' ∉ mid) ∧
      parse_control (([("a".toList : Str)].map commentLine).flatten) = .ok [] := by
  exact ⟨⟨by decide, by decide⟩,
    c10_comments_only_empty_map.1 ["a".toList] (by decide) (by decide)⟩

/-- C4 (amended): in the `CreatingKey` state a `'#'` character always starts a
comment, whatever the current key prefix (`s` may differ from `idx`, i.e. the
prefix may be non-empty); the parser never treats `'#'` as an ordinary key
character. -/
theorem c4_hash_in_key_starts_comment (input rest : Str) (idx s : Nat) (out : KVMap) :
    parseControlGo input ('#' :: rest) idx (.CreatingKey s) out =
      parseControlGo input rest (idx + 1) .SkippingComment out := by
  rfl

/-- Every character `hexOf` emits is one of the sixteen lowercase hex
digits. -/
theorem hexOf_lowercase (bs : List Nat) : ∀ c ∈ hexOf bs, c ∈ hexDigits := by
  have hmem : ∀ i : Nat, hexDigits.getD i '0' ∈ hexDigits := by
    intro i
    by_cases h : i < hexDigits.length
    · rw [List.getD_eq_getElem _ _ h]
      exact List.getElem_mem h
    · rw [List.getD_eq_default _ _ (by omega)]
      decide
  intro c hc
  rw [hexOf, List.mem_flatMap] at hc
  obtain ⟨b, _, hcb⟩ := hc
  simp only [List.mem_cons, List.not_mem_nil, or_false] at hcb
  rcases hcb with h | h
  · exact h ▸ hmem (b / 16)
  · exact h ▸ hmem (b % 16)

/-- C7: `write_into_packages` emits every original field as
`<key>: <trimmed value>` followed by a newline, in insertion order, then the
six derived fields in the order Filename, Size, Description-md5, MD5sum,
SHA1, SHA256, each on its own line with no newline after the last, and every
hex digest it embeds consists solely of lowercase hex digits with no
separators or prefix. -/
theorem c7_write_into_packages (p : Package) :
    p.write_into_packages = writePackagesSpec p ∧
      (∀ bs : List Nat, ∀ c ∈ hexOf bs, c ∈ hexDigits) := by
  refine ⟨?_, fun bs => hexOf_lowercase bs⟩
  simp [Package.write_into_packages, writePackagesSpec, PackageMeta.serialize,
    List.intercalate, List.intersperse, List.append_assoc]

/-- The byte sequence selected by `v.get(1..)`-with-fallback equals, in
byte-level terms, the encoding's tail when its first byte is ASCII and the
empty sequence otherwise. -/
theorem strGet1_bytes (v : Str) :
    (match strGet1 v with
      | some bs => bs
      | none => []) =
    (match utf8Encode v with
      | [] => []
      | b :: r => if b < 128 then r else []) := by
  cases v with
  | nil => rfl
  | cons c rest =>
    by_cases hc : c.toNat < 128
    · simp [strGet1, hc, utf8Encode, utf8EncodeChar, List.flatMap_cons]
    · simp only [strGet1, if_neg hc, utf8Encode, List.flatMap_cons, utf8EncodeChar]
      by_cases h1 : c.toNat < 2048
      · simp [if_pos h1, if_neg (show ¬ (192 + c.toNat / 64 < 128) by omega)]
      · by_cases h2 : c.toNat < 65536
        · simp [if_neg h1, if_pos h2, if_neg (show ¬ (224 + c.toNat / 4096 < 128) by omega)]
        · simp [if_neg h1, if_neg h2,
            if_neg (show ¬ (240 + c.toNat / 262144 < 128) by omega)]

/-- C5 (amended): for every control text accepted by `get_control` with map
`m`, a successfully read package's `description_md5` is the MD5 of the
Description value's bytes from the second byte on when the value's first
byte is ASCII (byte offset 1 a character boundary), and the MD5 of the empty
byte string when the value's first byte is not ASCII, the value is empty, or
the field is absent. -/
theorem c5_description_md5 (origPath : Str) (fileBytes : List Nat) (control : Str)
    (m : KVMap) (p : Package) (hm : get_control control = .ok m)
    (h : read_package origPath fileBytes control = .ok p) :
    p.meta.description_md5 = hashMd5 (descriptionBytesAmended m) := by
  simp only [read_package, hm] at h
  rcases hrf : RequiredFields.from_map m with _ | rf
  · rw [hrf] at h
    cases h
  · rw [hrf] at h
    cases h
    show description_md5_of m = _
    rw [description_md5_of, descriptionBytesAmended]
    cases hfind : findCI m "description".toList with
    | none => rfl
    | some v =>
      show (match strGet1 v with
          | some bytes => hashMd5 bytes
          | none => hashMd5 []) =
        hashMd5 (match utf8Encode v with
          | [] => []
          | b :: r => if b < 128 then r else [])
      have key : (match strGet1 v with
          | some bytes => hashMd5 bytes
          | none => hashMd5 []) = hashMd5 (match strGet1 v with
          | some bs => bs
          | none => []) := by
        cases strGet1 v <;> rfl
      rw [key, strGet1_bytes v]

/-- C5 counterexample: on a Description value whose first character is
multi-byte (`"é\n"`), `read_package` succeeds but hashes the empty byte
string (`v.get(1..)` is `None` because byte offset 1 is not a character
boundary), while the claim prescribes the MD5 of the value's bytes starting
from the second byte — and the two digests differ. -/
theorem c5_counterexample :
    get_control c5Control = .ok c5Map ∧
    (read_package "f".toList [] c5Control).toOption.map (fun p => p.meta.description_md5)
      = some (hashMd5 []) ∧
    hashMd5 [] ≠ hashMd5 (descriptionBytesClaim c5Map) := by
  refine ⟨by decide, by decide, by decide⟩

/-- Witness for the amended C5 at a concrete package. -/
theorem c5_description_md5_witness :
    ∃ p, get_control c5wControl = .ok c5wMap ∧
      read_package "f".toList [] c5wControl = .ok p ∧
      p.meta.description_md5 = hashMd5 (descriptionBytesAmended c5wMap) :=
  ⟨_, by decide, rfl, c5_description_md5 "f".toList [] c5wControl c5wMap _ (by decide) rfl⟩

/-- C8: when xz compression of an index buffer fails (gzip succeeding), the
error the code returns carries the algorithm name `"gz"`, not `"xz"`: the
source's xz arm reuses the `"gz"` label.  The second conjunct records that
the two names differ, so the error misnames the failing algorithm. -/
theorem c8_xz_failure_reported_as_gz :
    result_flat_mapper (fun bs => .ok bs) (fun _ => .error 7)
        { arch := "a".toList, contents := "x".toList } =
      [.error (.Compression "gz".toList (indexPathPlain "a".toList) 7)] ∧
    "gz".toList ≠ "xz".toList := by
  exact ⟨rfl, by decide⟩

/-- A successful collect over the flat-mapped compression results means every
group compressed successfully and the index list is the concatenation of the
per-group triples, in group order. -/
theorem collect_rfm_ok (gz xz : Compressor) :
    ∀ (ord : List IndexFileWithArch) (indexes : List PackageIndexFile),
    collectExcept (ord.flatMap (result_flat_mapper gz xz)) = .ok indexes →
    indexes = ord.flatMap (successTriple gz xz) ∧
    ∀ f ∈ ord, (∃ g, gz (utf8Encode f.contents) = .ok g) ∧
      ∃ x, xz (utf8Encode f.contents) = .ok x := by
  intro ord
  induction ord with
  | nil =>
    intro indexes h
    refine ⟨?_, by simp⟩
    simpa [collectExcept] using h.symm
  | cons f fs ih =>
    intro indexes h
    rw [List.flatMap_cons] at h
    cases hg : gz (utf8Encode f.contents) with
    | error e =>
      simp only [result_flat_mapper, hg, List.cons_append, List.nil_append,
        collectExcept] at h
      exact Except.noConfusion h
    | ok g =>
      cases hx : xz (utf8Encode f.contents) with
      | error e =>
        simp only [result_flat_mapper, hg, hx, List.cons_append, List.nil_append,
          collectExcept] at h
        exact Except.noConfusion h
      | ok x =>
        simp only [result_flat_mapper, hg, hx, List.cons_append, List.nil_append,
          collectExcept] at h
        cases hrest : collectExcept (fs.flatMap (result_flat_mapper gz xz)) with
        | error e => rw [hrest] at h; simp at h
        | ok xs =>
          rw [hrest] at h
          simp only [Except.ok.injEq] at h
          obtain ⟨h1, h2⟩ := ih xs hrest
          subst h
          constructor
          · rw [List.flatMap_cons, successTriple, hg, hx, h1]
            rfl
          · intro f' hf'
            rcases List.mem_cons.mp hf' with hf | hf
            · subst hf
              exact ⟨⟨g, hg⟩, ⟨x, hx⟩⟩
            · exact h2 f' hf

/-- The `lastTwo` of a list ending in three explicit characters. -/
theorem lastTwo_append3 (l : Str) (c1 c2 c3 : Char) :
    lastTwo (l ++ [c1, c2, c3]) = some (c3, c2) := by
  simp [lastTwo, List.reverse_append]

/-- The plain index path ends in `es`. -/
theorem lastTwo_plain (a : Str) : lastTwo (indexPathPlain a) = some ('s', 'e') := by
  have h : indexPathPlain a =
      ("main/binary-".toList ++ a ++ ['/', 'P', 'a', 'c', 'k', 'a']) ++ ['g', 'e', 's'] := by
    simp [indexPathPlain, List.append_assoc]
  rw [h, lastTwo_append3]

/-- The gz index path ends in `gz`. -/
theorem lastTwo_gz (a : Str) : lastTwo (indexPathGz a) = some ('z', 'g') := by
  have h : indexPathGz a = indexPathPlain a ++ ['.', 'g', 'z'] := rfl
  rw [h, lastTwo_append3]

/-- The xz index path ends in `xz`. -/
theorem lastTwo_xz (a : Str) : lastTwo (indexPathXz a) = some ('z', 'x') := by
  have h : indexPathXz a = indexPathPlain a ++ ['.', 'x', 'z'] := rfl
  rw [h, lastTwo_append3]

/-- Every index path starts with `m`. -/
theorem head_plain (a : Str) : (indexPathPlain a).head? = some 'm' := rfl

/-- Every gz index path starts with `m`. -/
theorem head_gz (a : Str) : (indexPathGz a).head? = some 'm' := rfl

/-- Every xz index path starts with `m`. -/
theorem head_xz (a : Str) : (indexPathXz a).head? = some 'm' := rfl

/-- Distinct architectures give distinct plain paths. -/
theorem indexPathPlain_inj {a b : Str} (h : indexPathPlain a = indexPathPlain b) : a = b := by
  unfold indexPathPlain at h
  have h1 := List.append_cancel_right h
  exact List.append_cancel_left h1

/-- Distinct architectures give distinct gz paths. -/
theorem indexPathGz_inj {a b : Str} (h : indexPathGz a = indexPathGz b) : a = b :=
  indexPathPlain_inj (List.append_cancel_right h)

/-- Distinct architectures give distinct xz paths. -/
theorem indexPathXz_inj {a b : Str} (h : indexPathXz a = indexPathXz b) : a = b :=
  indexPathPlain_inj (List.append_cancel_right h)

/-- A plain path never equals a gz path. -/
theorem plain_ne_gz (a b : Str) : indexPathPlain a ≠ indexPathGz b := by
  intro h
  have := (lastTwo_plain a).symm.trans ((congrArg lastTwo h).trans (lastTwo_gz b))
  simp at this

/-- A plain path never equals an xz path. -/
theorem plain_ne_xz (a b : Str) : indexPathPlain a ≠ indexPathXz b := by
  intro h
  have := (lastTwo_plain a).symm.trans ((congrArg lastTwo h).trans (lastTwo_xz b))
  simp at this

/-- A gz path never equals an xz path. -/
theorem gz_ne_xz (a b : Str) : indexPathGz a ≠ indexPathXz b := by
  intro h
  have := (lastTwo_gz a).symm.trans ((congrArg lastTwo h).trans (lastTwo_xz b))
  simp at this

/-- Appending a package to the aggregation preserves the key list, adding
its architecture at the end when it is new. -/
theorem addPackageStanza_keys (acc : List (Str × Str)) (p : Package) :
    (addPackageStanza acc p).map Prod.fst =
      if p.architecture ∈ acc.map Prod.fst then acc.map Prod.fst
      else acc.map Prod.fst ++ [p.architecture] := by
  induction acc with
  | nil => simp [addPackageStanza]
  | cons hd rest ih =>
    obtain ⟨a, s⟩ := hd
    by_cases h : a = p.architecture
    · subst h
      simp [addPackageStanza]
    · simp only [addPackageStanza, if_neg h, List.map_cons, ih]
      by_cases hmem : p.architecture ∈ rest.map Prod.fst
      · simp [hmem, List.mem_cons, Ne.symm h]
      · simp [hmem, List.mem_cons, Ne.symm h]

/-- Membership in the aggregation keys. -/
theorem mem_addPackageStanza_keys (acc : List (Str × Str)) (p : Package) (x : Str) :
    x ∈ (addPackageStanza acc p).map Prod.fst ↔
      x ∈ acc.map Prod.fst ∨ x = p.architecture := by
  rw [addPackageStanza_keys]
  by_cases h : p.architecture ∈ acc.map Prod.fst
  · rw [if_pos h]
    constructor
    · exact Or.inl
    · rintro (hx | hx)
      · exact hx
      · exact hx ▸ h
  · rw [if_neg h]
    simp [List.mem_append]

/-- The aggregation preserves key distinctness. -/
theorem addPackageStanza_keys_nodup (acc : List (Str × Str)) (p : Package)
    (h : (acc.map Prod.fst).Nodup) : ((addPackageStanza acc p).map Prod.fst).Nodup := by
  rw [addPackageStanza_keys]
  by_cases hm : p.architecture ∈ acc.map Prod.fst
  · simpa [hm] using h
  · rw [if_neg hm]
    simp [List.nodup_append, h, hm]

/-- The whole fold keeps the key list duplicate-free. -/
theorem foldl_keys_nodup :
    ∀ (ps : List Package) (acc : List (Str × Str)), (acc.map Prod.fst).Nodup →
    ((ps.foldl addPackageStanza acc).map Prod.fst).Nodup := by
  intro ps
  induction ps with
  | nil => intro acc h; exact h
  | cons p ps ih => intro acc h; exact ih _ (addPackageStanza_keys_nodup acc p h)

/-- Key membership after the whole fold. -/
theorem foldl_keys_mem :
    ∀ (ps : List Package) (acc : List (Str × Str)) (x : Str),
    (x ∈ (ps.foldl addPackageStanza acc).map Prod.fst ↔
      x ∈ acc.map Prod.fst ∨ x ∈ ps.map (fun p => p.architecture)) := by
  intro ps
  induction ps with
  | nil => simp
  | cons p ps ih =>
    intro acc x
    rw [List.foldl_cons, ih, mem_addPackageStanza_keys]
    simp only [List.map_cons, List.mem_cons]
    tauto

/-- The architectures of the grouped index files are the aggregation keys. -/
theorem gif_arches (ps : List Package) :
    (generate_index_files ps).map (fun f => f.arch) =
      (ps.foldl addPackageStanza []).map Prod.fst := by
  simp [generate_index_files, List.map_map]

/-- The grouped index files carry pairwise-distinct architectures. -/
theorem gif_arches_nodup (ps : List Package) :
    ((generate_index_files ps).map (fun f => f.arch)).Nodup := by
  rw [gif_arches]
  exact foldl_keys_nodup ps [] (by simp)

/-- The grouped architectures are exactly those among the packages. -/
theorem gif_arches_mem (ps : List Package) (a : Str) :
    a ∈ (generate_index_files ps).map (fun f => f.arch) ↔
      a ∈ ps.map (fun p => p.architecture) := by
  rw [gif_arches, foldl_keys_mem]
  simp

/-- Paths emitted for one successfully compressed group. -/
theorem successTriple_paths {gz xz : Compressor} {f : IndexFileWithArch}
    (hg : ∃ g, gz (utf8Encode f.contents) = .ok g)
    (hx : ∃ x, xz (utf8Encode f.contents) = .ok x) :
    (successTriple gz xz f).map (fun i => i.path) =
      [indexPathGz f.arch, indexPathXz f.arch, indexPathPlain f.arch] := by
  obtain ⟨g, hg⟩ := hg
  obtain ⟨x, hx⟩ := hx
  simp [successTriple, hg, hx]

/-- Architectures emitted for one successfully compressed group. -/
theorem successTriple_arches {gz xz : Compressor} {f : IndexFileWithArch}
    (hg : ∃ g, gz (utf8Encode f.contents) = .ok g)
    (hx : ∃ x, xz (utf8Encode f.contents) = .ok x) :
    (successTriple gz xz f).map (fun i => i.arch) = [f.arch, f.arch, f.arch] := by
  obtain ⟨g, hg⟩ := hg
  obtain ⟨x, hx⟩ := hx
  simp [successTriple, hg, hx]

/-- The collected index files list exactly the three per-architecture paths
per group, in group order. -/
theorem indexes_paths {gz xz : Compressor} {ord : List IndexFileWithArch}
    {indexes : List PackageIndexFile}
    (h : collectExcept (ord.flatMap (result_flat_mapper gz xz)) = .ok indexes) :
    indexes.map (fun i => i.path) =
      ord.flatMap (fun f => [indexPathGz f.arch, indexPathXz f.arch, indexPathPlain f.arch]) := by
  obtain ⟨h1, h2⟩ := collect_rfm_ok gz xz ord indexes h
  subst h1
  rw [List.map_flatMap]
  exact List.flatMap_congr (fun f hf => successTriple_paths (h2 f hf).1 (h2 f hf).2)

/-- The three paths of one architecture are pairwise distinct. -/
theorem tri_nodup (a : Str) :
    ([indexPathGz a, indexPathXz a, indexPathPlain a] : List Str).Nodup := by
  refine List.nodup_cons.mpr ⟨?_, List.nodup_cons.mpr ⟨?_, List.nodup_singleton _⟩⟩
  · intro hmem
    rcases List.mem_cons.mp hmem with h | h
    · exact gz_ne_xz a a h
    · exact plain_ne_gz a a ((List.mem_singleton.mp h).symm)
  · intro hmem
    exact plain_ne_xz a a ((List.mem_singleton.mp hmem).symm)

/-- The path triples of two distinct architectures are disjoint. -/
theorem tri_disjoint {a b : Str} (hab : a ≠ b) :
    List.Disjoint [indexPathGz a, indexPathXz a, indexPathPlain a]
      [indexPathGz b, indexPathXz b, indexPathPlain b] := by
  intro x hxa hxb
  simp only [List.mem_cons, List.not_mem_nil, or_false] at hxa hxb
  rcases hxa with h1 | h1 | h1 <;> rcases hxb with h2 | h2 | h2 <;> subst h1 <;>
    first
    | exact hab (indexPathGz_inj h2)
    | exact hab (indexPathXz_inj h2)
    | exact hab (indexPathPlain_inj h2)
    | exact gz_ne_xz _ _ h2
    | exact gz_ne_xz _ _ h2.symm
    | exact plain_ne_gz _ _ h2
    | exact plain_ne_gz _ _ h2.symm
    | exact plain_ne_xz _ _ h2
    | exact plain_ne_xz _ _ h2.symm

/-- With pairwise-distinct group architectures, the collected index paths
are pairwise distinct. -/
theorem indexes_paths_nodup {gz xz : Compressor} {ord : List IndexFileWithArch}
    {indexes : List PackageIndexFile}
    (h : collectExcept (ord.flatMap (result_flat_mapper gz xz)) = .ok indexes)
    (hnd : (ord.map (fun f => f.arch)).Nodup) :
    (indexes.map (fun i => i.path)).Nodup := by
  have hsplit :
      (ord.flatMap fun f => [indexPathGz f.arch, indexPathXz f.arch, indexPathPlain f.arch]) =
        (ord.map (fun f => f.arch)).flatMap
          (fun a => [indexPathGz a, indexPathXz a, indexPathPlain a]) := by
    rw [List.flatMap_map]
  rw [indexes_paths h, hsplit, List.nodup_flatMap]
  exact ⟨fun a _ => tri_nodup a, List.Pairwise.imp (fun hab => tri_disjoint hab) hnd⟩

/-- Inversion of a successful `generate_files` run: the collect succeeded,
signing yielded a first signature, and the output is the index uploads
followed by the four release files. -/
theorem generate_files_ok_structure {gz xz : Compressor} {sign : Str → SignOutput}
    {pubkeyBytes : List Nat} {cfg : ReleaseMetadata} {ord : List IndexFileWithArch}
    {out : List FileToUpload}
    (h : generate_files gz xz sign pubkeyBytes cfg ord = .ok out) :
    ∃ indexes firstSig,
      collectExcept (ord.flatMap (result_flat_mapper gz xz)) = .ok indexes ∧
      (sign (releaseOf cfg indexes)).sigs.head? = some firstSig ∧
      out = (indexes.map fun v => { destination_path := v.path, data := v.data : FileToUpload })
        ++ [{ destination_path := "InRelease".toList,
              data := (sign (releaseOf cfg indexes)).armored },
            { destination_path := "Release".toList,
              data := utf8Encode (releaseOf cfg indexes) },
            { destination_path := "Release.gpg".toList, data := firstSig },
            { destination_path := "deriv-archive-keyring.pgp".toList, data := pubkeyBytes }] := by
  unfold generate_files at h
  split at h
  · exact Except.noConfusion h
  · next indexes heq =>
    simp only at h
    split at h
    · exact Except.noConfusion h
    · next firstSig hsig =>
      refine ⟨indexes, firstSig, heq, hsig, ?_⟩
      cases h
      rfl

/-- C6: a successful `generate_files` run returns exactly three index files
(`Packages.gz`, `Packages.xz`, `Packages` under `main/binary-{arch}/`) for
each distinct architecture among the packages, plus the four files
`InRelease`, `Release`, `Release.gpg` and `deriv-archive-keyring.pgp`; no
two entries share a destination path; the output length is `3·#arches + 4`;
and the grouped architectures are duplicate-free and exactly those of the
packages. -/
theorem c6_output_inventory
    (gz xz : Compressor) (sign : Str → SignOutput) (pubkeyBytes : List Nat)
    (cfg : ReleaseMetadata) (packages : List Package) (ord : List IndexFileWithArch)
    (out : List FileToUpload)
    (hperm : ord.Perm (generate_index_files packages))
    (h : generate_files gz xz sign pubkeyBytes cfg ord = .ok out) :
    (out.map (fun f => f.destination_path)).Perm
        ((((generate_index_files packages).map (fun f => f.arch)).flatMap
          (fun a => [indexPathGz a, indexPathXz a, indexPathPlain a])) ++ basePaths) ∧
    (out.map (fun f => f.destination_path)).Nodup ∧
    out.length = 3 * ((generate_index_files packages).map (fun f => f.arch)).length + 4 ∧
    ((generate_index_files packages).map (fun f => f.arch)).Nodup ∧
    (∀ a, a ∈ (generate_index_files packages).map (fun f => f.arch) ↔
      a ∈ packages.map (fun p => p.architecture)) := by
  obtain ⟨indexes, firstSig, hcol, hsig, hout⟩ := generate_files_ok_structure h
  have hordarch : (ord.map (fun f => f.arch)).Perm
      ((generate_index_files packages).map (fun f => f.arch)) := hperm.map _
  have hordnd : (ord.map (fun f => f.arch)).Nodup :=
    hordarch.nodup_iff.mpr (gif_arches_nodup packages)
  have hpaths := indexes_paths hcol
  have houtpaths : out.map (fun f => f.destination_path) =
      indexes.map (fun i => i.path) ++ basePaths := by
    subst hout
    simp [basePaths, List.map_map]
  have hsplit :
      (ord.flatMap fun f => [indexPathGz f.arch, indexPathXz f.arch, indexPathPlain f.arch]) =
        (ord.map (fun f => f.arch)).flatMap
          (fun a => [indexPathGz a, indexPathXz a, indexPathPlain a]) := by
    rw [List.flatMap_map]
  have hlen3 : ∀ (l : List Str),
      (l.flatMap fun a => [indexPathGz a, indexPathXz a, indexPathPlain a]).length =
        3 * l.length := by
    intro l
    induction l with
    | nil => rfl
    | cons a t ih =>
      simp only [List.flatMap_cons, List.length_append, ih, List.length_cons, List.length_nil]
      omega
  have hpermPaths : (out.map (fun f => f.destination_path)).Perm
      ((((generate_index_files packages).map (fun f => f.arch)).flatMap
        (fun a => [indexPathGz a, indexPathXz a, indexPathPlain a])) ++ basePaths) := by
    rw [houtpaths, hpaths, hsplit]
    exact (hordarch.flatMap_right _).append_right _
  have hdisj : List.Disjoint (indexes.map (fun i => i.path)) basePaths := by
    intro x hx1 hx2
    rw [hpaths, List.mem_flatMap] at hx1
    obtain ⟨f, _, hxf⟩ := hx1
    have hhead : x.head? = some 'm' := by
      rcases List.mem_cons.mp hxf with h1 | h1
      · exact h1 ▸ head_gz f.arch
      rcases List.mem_cons.mp h1 with h2 | h2
      · exact h2 ▸ head_xz f.arch
      · exact (List.mem_singleton.mp h2) ▸ head_plain f.arch
    simp only [basePaths, List.mem_cons, List.not_mem_nil, or_false] at hx2
    rcases hx2 with h1 | h1 | h1 | h1 <;> subst h1 <;> exact absurd hhead (by decide)
  refine ⟨hpermPaths, ?_, ?_, gif_arches_nodup packages, gif_arches_mem packages⟩
  · rw [houtpaths]
    exact (indexes_paths_nodup hcol hordnd).append (by decide) hdisj
  · have hlen := hpermPaths.length_eq
    rw [List.length_map] at hlen
    rw [hlen, List.length_append, hlen3]
    rfl

/-- Witness for C6: two packages with two distinct architectures yield
3·2 + 4 = 10 output entries. -/
theorem c6_output_inventory_witness :
    ∃ out, generate_files idComp idComp signK [7] cfgW
        (generate_index_files [pkgA, pkgB]) = .ok out ∧
      out.length = 10 := by
  refine ⟨_, rfl, ?_⟩
  have hres := (c6_output_inventory idComp idComp signK [7] cfgW [pkgA, pkgB]
    (generate_index_files [pkgA, pkgB]) _ (List.Perm.refl _) rfl).2.2.1
  rw [show (((generate_index_files [pkgA, pkgB]).map (fun f => f.arch)).length) = 2
    from by decide] at hres
  exact hres.trans (by norm_num)

/-- Every collected index path starts with `m`. -/
theorem indexes_path_head {gz xz : Compressor} {ord : List IndexFileWithArch}
    {indexes : List PackageIndexFile}
    (h : collectExcept (ord.flatMap (result_flat_mapper gz xz)) = .ok indexes) :
    ∀ x ∈ indexes.map (fun i => i.path), x.head? = some 'm' := by
  intro x hx
  rw [indexes_paths h, List.mem_flatMap] at hx
  obtain ⟨f, _, hxf⟩ := hx
  rcases List.mem_cons.mp hxf with h1 | h1
  · exact h1 ▸ head_gz f.arch
  rcases List.mem_cons.mp h1 with h2 | h2
  · exact h2 ▸ head_xz f.arch
  · exact (List.mem_singleton.mp h2) ▸ head_plain f.arch

/-- C1: on a successful run, the Release upload renders exactly the
`FileMeta` records of the collected index files — so each hash-section line
is ` {hex digest} {size} {path}` for those records — and for every
`FileToUpload` in the output, every rendered record whose path equals that
file's destination path carries precisely that file's byte length and the
MD5/SHA1/SHA256 digests of its data. -/
theorem c1_release_hashes (gz xz : Compressor) (sign : Str → SignOutput)
    (pubkeyBytes : List Nat) (cfg : ReleaseMetadata) (packages : List Package)
    (ord : List IndexFileWithArch) (out : List FileToUpload)
    (hperm : ord.Perm (generate_index_files packages))
    (h : generate_files gz xz sign pubkeyBytes cfg ord = .ok out) :
    ∃ indexes,
      collectExcept (ord.flatMap (result_flat_mapper gz xz)) = .ok indexes ∧
      ({ destination_path := "Release".toList,
         data := utf8Encode (generate_release cfg
           (indexes.map fun i => FileMeta.new i.path i.data)
           (indexes.map fun i => i.arch)) } : FileToUpload) ∈ out ∧
      ∀ f ∈ out, ∀ fm ∈ indexes.map (fun i => FileMeta.new i.path i.data),
        fm.path = f.destination_path →
        fm.size = f.data.length ∧ fm.sums = FileSums.new f.data := by
  obtain ⟨indexes, firstSig, hcol, hsig, hout⟩ := generate_files_ok_structure h
  refine ⟨indexes, hcol, ?_, ?_⟩
  · rw [hout, List.mem_append]
    right
    simp [releaseOf]
  · intro f hf fm hfm hpathEq
    rw [List.mem_map] at hfm
    obtain ⟨i, hi, hfmeq⟩ := hfm
    rw [hout, List.mem_append] at hf
    rcases hf with hf | hf
    · rw [List.mem_map] at hf
      obtain ⟨j, hj, hfeq⟩ := hf
      have hordnd : (ord.map (fun f => f.arch)).Nodup :=
        (hperm.map _).nodup_iff.mpr (gif_arches_nodup packages)
      have hnd := indexes_paths_nodup hcol hordnd
      have hpij : i.path = j.path := by
        rw [← hfeq] at hpathEq
        rw [← hfmeq] at hpathEq
        exact hpathEq
      have hij : i = j :=
        List.inj_on_of_nodup_map hnd hi hj hpij
      subst hij
      rw [← hfmeq, ← hfeq]
      exact ⟨rfl, rfl⟩
    · have hhead : fm.path.head? = some 'm' := by
        rw [← hfmeq]
        exact indexes_path_head hcol i.path (List.mem_map_of_mem _ hi)
      have hfp : f.destination_path ∈ basePaths := by
        have h4 := List.mem_map_of_mem (fun u : FileToUpload => u.destination_path) hf
        simpa [basePaths] using h4
      have hfin : f.destination_path.head? = some 'm' := hpathEq ▸ hhead
      simp only [basePaths, List.mem_cons, List.not_mem_nil, or_false] at hfp
      rcases hfp with h1 | h1 | h1 | h1 <;> rw [h1] at hfin <;> exact absurd hfin (by decide)

/-- Witness for C1 at a concrete one-package repository. -/
theorem c1_release_hashes_witness :
    ∃ out, generate_files idComp idComp signK [7] cfgW
        (generate_index_files [pkgA]) = .ok out ∧
      ∃ indexes,
        collectExcept ((generate_index_files [pkgA]).flatMap
          (result_flat_mapper idComp idComp)) = .ok indexes ∧
        ({ destination_path := "Release".toList,
           data := utf8Encode (generate_release cfgW
             (indexes.map fun i => FileMeta.new i.path i.data)
             (indexes.map fun i => i.arch)) } : FileToUpload) ∈ out ∧
        ∀ f ∈ out, ∀ fm ∈ indexes.map (fun i => FileMeta.new i.path i.data),
          fm.path = f.destination_path →
          fm.size = f.data.length ∧ fm.sums = FileSums.new f.data :=
  ⟨_, rfl, c1_release_hashes idComp idComp signK [7] cfgW [pkgA]
    (generate_index_files [pkgA]) _ (List.Perm.refl _) rfl⟩

/-- Lookup by key is invariant under permutation when keys are
duplicate-free. -/
theorem find?_eq_of_perm_nodup {α : Type} (key : α → Str) {l1 l2 : List α}
    (hp : l1.Perm l2) (hn : (l1.map key).Nodup) (p : Str) :
    l1.find? (fun x => key x == p) = l2.find? (fun x => key x == p) := by
  cases hfind : l1.find? (fun x => key x == p) with
  | some x =>
    have hx1 : x ∈ l1 := List.mem_of_find?_eq_some hfind
    have hpx : key x = p := by
      have := List.find?_some hfind
      simpa using this
    cases hfind2 : l2.find? (fun x => key x == p) with
    | none =>
      rw [List.find?_eq_none] at hfind2
      have := hfind2 x (hp.mem_iff.mp hx1)
      simp [hpx] at this
    | some y =>
      have hpy : key y = p := by
        have := List.find?_some hfind2
        simpa using this
      have hxy : x = y :=
        List.inj_on_of_nodup_map hn hx1 (hp.mem_iff.mpr (List.mem_of_find?_eq_some hfind2))
          (hpx.trans hpy.symm)
      rw [hxy]
  | none =>
    rw [List.find?_eq_none] at hfind
    cases hfind2 : l2.find? (fun x => key x == p) with
    | some y =>
      have hy1 : y ∈ l1 := hp.mem_iff.mpr (List.mem_of_find?_eq_some hfind2)
      have := hfind y hy1
      have hpy := List.find?_some hfind2
      simp [hpy] at this
    | none => rfl

/-- C2 (amended): two successful runs over the same inputs and date agree,
byte for byte, on every output file other than `Release` and the two
signature files `InRelease` and `Release.gpg` — whatever architecture
iteration orders the two runs' hash maps produced.  (`Release` itself
depends on the iteration order through its `Architectures` line and the
order of its hash-section entries, and is byte-identical whenever the two
orders coincide.) -/
theorem c2_nonsignature_determinism
    (gz xz : Compressor) (sign : Str → SignOutput) (pubkeyBytes : List Nat)
    (cfg : ReleaseMetadata) (packages : List Package)
    (ord1 ord2 : List IndexFileWithArch) (out1 out2 : List FileToUpload)
    (hp1 : ord1.Perm (generate_index_files packages))
    (hp2 : ord2.Perm (generate_index_files packages))
    (h1 : generate_files gz xz sign pubkeyBytes cfg ord1 = .ok out1)
    (h2 : generate_files gz xz sign pubkeyBytes cfg ord2 = .ok out2)
    (p : Str)
    (hp : p ∉ (["InRelease".toList, "Release".toList, "Release.gpg".toList] : List Str)) :
    out1.find? (fun f => f.destination_path == p) =
      out2.find? (fun f => f.destination_path == p) := by
  obtain ⟨idx1, s1, hcol1, hsig1, hout1⟩ := generate_files_ok_structure h1
  obtain ⟨idx2, s2, hcol2, hsig2, hout2⟩ := generate_files_ok_structure h2
  simp only [List.mem_cons, List.not_mem_nil, or_false, not_or] at hp
  obtain ⟨hne1, hne2, hne3⟩ := hp
  have hidx1 := (collect_rfm_ok gz xz ord1 idx1 hcol1).1
  have hidx2 := (collect_rfm_ok gz xz ord2 idx2 hcol2).1
  have hpidx : idx1.Perm idx2 := by
    rw [hidx1, hidx2]
    exact (hp1.trans hp2.symm).flatMap_right _
  have hpu : (idx1.map fun v =>
      { destination_path := v.path, data := v.data : FileToUpload }).Perm
      (idx2.map fun v => { destination_path := v.path, data := v.data : FileToUpload }) :=
    hpidx.map _
  have hordnd1 : (ord1.map (fun f => f.arch)).Nodup :=
    (hp1.map _).nodup_iff.mpr (gif_arches_nodup packages)
  have hnu : ((idx1.map fun v =>
      { destination_path := v.path, data := v.data : FileToUpload }).map
        (fun f => f.destination_path)).Nodup := by
    rw [List.map_map]
    exact indexes_paths_nodup hcol1 hordnd1
  have hufind := find?_eq_of_perm_nodup (fun f : FileToUpload => f.destination_path) hpu hnu p
  have e1 : (("InRelease".toList : Str) == p) = false :=
    beq_eq_false_iff_ne.mpr (fun he => hne1 he.symm)
  have e2 : (("Release".toList : Str) == p) = false :=
    beq_eq_false_iff_ne.mpr (fun he => hne2 he.symm)
  have e3 : (("Release.gpg".toList : Str) == p) = false :=
    beq_eq_false_iff_ne.mpr (fun he => hne3 he.symm)
  rw [hout1, hout2, List.find?_append, List.find?_append, hufind]
  simp only [List.find?_cons, e1, e2, e3]

/-- C2 counterexample: two runs on identical inputs and an identical date,
whose hash maps merely enumerate the two architecture groups in opposite
orders, produce different bytes for the non-signature file `Release` (its
`Architectures` line and hash-section entries are ordered differently), so
the outputs are not byte-identical on every non-signature file. -/
theorem c2_counterexample :
    gifAB.reverse.Perm gifAB ∧
    ((generate_files idComp idComp signK [7] cfgW gifAB).toOption.bind
      (fun out => out.find? (fun f => f.destination_path == "Release".toList))) ≠
    ((generate_files idComp idComp signK [7] cfgW gifAB.reverse).toOption.bind
      (fun out => out.find? (fun f => f.destination_path == "Release".toList))) := by
  exact ⟨List.reverse_perm _, by decide⟩

/-- Witness for the amended C2: the per-architecture `Packages` file is
byte-identical across the two opposite-order runs. -/
theorem c2_nonsignature_determinism_witness :
    ∃ out1 out2,
      generate_files idComp idComp signK [7] cfgW gifAB = .ok out1 ∧
      generate_files idComp idComp signK [7] cfgW gifAB.reverse = .ok out2 ∧
      out1.find? (fun f => f.destination_path == "main/binary-a/Packages".toList) =
        out2.find? (fun f => f.destination_path == "main/binary-a/Packages".toList) :=
  ⟨_, _, rfl, rfl, c2_nonsignature_determinism idComp idComp signK [7] cfgW [pkgA, pkgB]
    gifAB gifAB.reverse _ _ (List.Perm.refl _) (List.reverse_perm _) rfl rfl
    "main/binary-a/Packages".toList (by decide)⟩
